import Mathlib

/-!
Shallow embedding of the frame-pair sampling engine of the repository
(file src/utils/frame_sampling.py), together with proofs of the
behavioural properties stated in its specification.

Conventions of the embedding:
* Python sets of pairs are modelled as lists of pairs; the generators
  never produce duplicates, and every property proved here is a
  membership / cardinality property, so list membership is the set
  semantics.
* Relative frame indices are natural numbers (they are produced by
  Python range scans starting at 0); num_frames and the distance
  parameters are integers, as in Python, so that negative inputs are
  representable.
* Fallible code (the assert at the top of sample_hierarchical, and the
  dispatcher call of sample_exhausted, which raises TypeError, see
  below) is modelled with Except String.
* numpy log2/ceil/floor on positive integer inputs are modelled by the
  exact integer functions floorLog2 and ceilLog2 below.  numpy applied
  to a non-positive argument (which happens when max_dist < 1) yields
  nan or -inf, and the subsequent astype int makes max_level a huge
  negative number, so the level range is empty; the embedding models
  this as an empty level list.
-/

namespace FrameSampling

/-- Enumeration SamplePairsMode of frame_sampling.py: EXHAUSTED = 0 and
the three auto members, in declaration order. -/
inductive SamplePairsMode where
  | EXHAUSTED
  | CONSECUTIVE
  | HIERARCHICAL
  | HIERARCHICAL2
deriving DecidableEq, Repr

/-- Python Enum member name of each mode (Enum .name is the member
identifier exactly as declared, hence upper case). -/
def SamplePairsMode.pyName : SamplePairsMode → String
  | .EXHAUSTED => "EXHAUSTED"
  | .CONSECUTIVE => "CONSECUTIVE"
  | .HIERARCHICAL => "HIERARCHICAL"
  | .HIERARCHICAL2 => "HIERARCHICAL2"

/-- Iteration order of the enum members, as Python iterates a class
with four members declared in this order. -/
def modeMembers : List SamplePairsMode :=
  [.EXHAUSTED, .CONSECUTIVE, .HIERARCHICAL, .HIERARCHICAL2]

/-- ASCII lower-casing of one character, as Python str.lower() acts on
the ASCII-only enum member names. -/
def lowerChar (c : Char) : Char :=
  if 'A' ≤ c ∧ c ≤ 'Z' then Char.ofNat (c.toNat + 32) else c

/-- Python str.lower() on the (ASCII) member names. -/
def pyLower (s : String) : String := String.mk (s.data.map lowerChar)

/-- name_mode_map of SamplePairsMode: a dictionary keyed by the
LOWER-CASED member name, mapping to the member.  Modelled as an
association list; Python dict lookup is exact string match on the key. -/
def name_mode_map : List (String × SamplePairsMode) :=
  modeMembers.map (fun v => (pyLower v.pyName, v))

/-- Dictionary access name_mode_map[s]: exact-match lookup of the
string s among the (lower-cased) keys; None models a KeyError. -/
def lookupMode (s : String) : Option SamplePairsMode :=
  (name_mode_map.find? (fun kv => kv.1 == s)).map (fun kv => kv.2)

/-- names() of SamplePairsMode: the list of lower-cased member names. -/
def modeNames : List String :=
  modeMembers.map (fun v => pyLower v.pyName)

/-- floor(log2 n) for n >= 1, by repeated halving (structural recursion
on a fuel argument so that the kernel can evaluate it; fuel n is always
sufficient since log2 n <= n). -/
def floorLog2Aux : Nat → Nat → Nat
  | 0, _ => 0
  | fuel + 1, n => if 2 ≤ n then floorLog2Aux fuel (n / 2) + 1 else 0

/-- floor(log2 n): models np.floor(np.log2(n)).astype(int) on a
positive integer n. -/
def floorLog2 (n : Nat) : Nat := floorLog2Aux n n

/-- ceil(log2 n): models np.ceil(np.log2(n)).astype(int) on a positive
integer n; ceil(log2 n) = floor(log2 (n-1)) + 1 for n >= 2 and 0 for
n <= 1. -/
def ceilLog2 (n : Nat) : Nat :=
  if 2 ≤ n then floorLog2 (n - 1) + 1 else 0

/-- Python range(0, stop, step) for step >= 1, as the list of its
elements: the i * step for i < ceil(stop / step) (all elements are
< stop).  A non-positive stop gives the empty list. -/
def rangeStep (stop : Int) (step : Nat) : List Nat :=
  List.range' 0 ((stop.toNat + step - 1) / step) step

/-- Levels range(min_level, max_level + 1) of sample_hierarchical:
min_level = ceil(log2 min_dist) (min_dist >= 1 is guaranteed by the
assert), max_level = floor(log2 max_dist).  When max_dist < 1, numpy
log2 yields nan or -inf and the astype int turns max_level into a huge
negative value, so the range is empty. -/
def hierLevels (min_dist : Nat) (max_dist : Int) : List Nat :=
  if max_dist < 1 then []
  else List.range' (ceilLog2 min_dist) (floorLog2 max_dist.toNat + 1 - ceilLog2 min_dist) 1

/-- Loop body of SamplePairs.sample_hierarchical after the assert and
the resolution of the default max_dist: for each level, dist = 2^level,
step = 2^(step_level level) where step_level is l-1 (natural
subtraction models max(0, l-1)) with midpoints and l without; for each
start in range(0, num_frames, step) and each sign (both signs when
two_way), end = start + sign * dist is kept iff 0 <= end < num_frames. -/
def hierPairs (num_frames : Int) (two_way : Bool) (min_dist : Nat)
    (max_dist : Int) (include_mid_point : Bool) : List (Nat × Nat) :=
  let signs : List Int := if two_way then [-1, 1] else [1]
  (hierLevels min_dist max_dist).flatMap (fun level =>
    let dist : Nat := 2 ^ level
    let step : Nat := 2 ^ (if include_mid_point then level - 1 else level)
    (rangeStep num_frames step).flatMap (fun start =>
      signs.filterMap (fun sign =>
        let e : Int := (start : Int) + sign * (dist : Int)
        if 0 ≤ e ∧ e < num_frames then some (start, e.toNat) else none)))

/-- SamplePairs.sample_hierarchical: asserts min_dist >= 1 (modelled as
an error), resolves max_dist = num_frames - 1 when it is None, then
runs the dyadic level scan hierPairs. -/
def sample_hierarchical (num_frames : Int) (two_way : Bool) (min_dist : Int)
    (max_dist : Option Int) (include_mid_point : Bool) :
    Except String (List (Nat × Nat)) :=
  if min_dist < 1 then Except.error "AssertionError: min_dist >= 1"
  else Except.ok (hierPairs num_frames two_way min_dist.toNat
    (max_dist.getD (num_frames - 1)) include_mid_point)

/-- SamplePairs.sample_hierarchical2: sample_hierarchical with
include_mid_point = True. -/
def sample_hierarchical2 (num_frames : Int) (two_way : Bool)
    (min_dist : Int) (max_dist : Option Int) :
    Except String (List (Nat × Nat)) :=
  sample_hierarchical num_frames two_way min_dist max_dist true

/-- SamplePairs.sample_consecutive: sample_hierarchical with
min_dist = 1, max_dist = 1. -/
def sample_consecutive (num_frames : Int) (two_way : Bool) :
    Except String (List (Nat × Nat)) :=
  sample_hierarchical num_frames two_way 1 (some 1) false

/-- Body of SamplePairs.sample_exhausted with its parameters num_frames
and two_way bound as named: for i in range(num_frames), j over the full
range (two_way) or range(i+1, num_frames), keeping (i, j) when i != j.
In the source the def line reads "def sample_exhausted(cls, num_frames,
two_way)" under a staticmethod decorator, so this binding is only
reached when a caller fills the spurious leading cls slot explicitly;
see factory below for what the dispatcher call does. -/
def sample_exhausted (num_frames : Int) (two_way : Bool) : List (Nat × Nat) :=
  let n := num_frames.toNat
  (List.range n).flatMap (fun i =>
    (if two_way then List.range n else List.range' (i + 1) (n - (i + 1)) 1).filterMap
      (fun j => if i ≠ j then some (i, j) else none))

/-- SamplePairsOptions: a mode together with its params dict.  The
dict entries recognised by the generators are min_dist, max_dist and
include_mid_point; here they are carried resolved against the keyword
defaults of sample_hierarchical (an absent key means the default:
min_dist 1, max_dist None, include_mid_point False), which is exactly
how ** unpacking combines with the keyword defaults. -/
structure SamplePairsOptions where
  mode : SamplePairsMode
  min_dist : Int
  max_dist : Option Int
  include_mid_point : Bool
deriving DecidableEq, Repr

/-- SamplePairsOptions with the default empty params dict, as built by
sample_pairs in video.py. -/
def defaultOpts (m : SamplePairsMode) : SamplePairsOptions :=
  ⟨m, 1, none, false⟩

/-- SamplePairs.factory: the funcs dict maps each mode to the bound
generator and calls it as funcs[opt.mode](num_frames, two_way,
**opt.params).  For EXHAUSTED this call raises: sample_exhausted is a
staticmethod whose first parameter is a spurious cls, so the two
positional arguments bind cls = num_frames and num_frames = two_way,
leaving the required parameter two_way unbound — a TypeError before any
pair is produced.  The other three modes dispatch normally. -/
def factory (num_frames : Int) (opt : SamplePairsOptions) (two_way : Bool) :
    Except String (List (Nat × Nat)) :=
  match opt.mode with
  | .EXHAUSTED =>
      Except.error "TypeError: sample_exhausted missing 1 required positional argument: two_way"
  | .CONSECUTIVE => sample_consecutive num_frames two_way
  | .HIERARCHICAL =>
      sample_hierarchical num_frames two_way opt.min_dist opt.max_dist opt.include_mid_point
  | .HIERARCHICAL2 =>
      sample_hierarchical2 num_frames two_way opt.min_dist opt.max_dist

/-- Modelled from the spec: class FrameRange of utils/frame_range.py is
not under src/; the spec describes it as an external collaborator
exposing length() (the count of indices, len(frame_range) in the
sampler), index_to_frame (a total deterministic mapping from indices in
[0, length()) to frame identifiers, subscripted in the sampler) and
frames() (the active frame set used for the final filter). -/
structure FrameRange where
  length : Nat
  index_to_frame : Nat → Int
  active : List Int

/-- Modelled from the spec: frames() of FrameRange returns the active
frame set. -/
def FrameRange.frames (fr : FrameRange) : List Int := fr.active

/-- Accumulation loop of SamplePairs.sample: rel_pairs starts empty and
is unioned with each factory result in turn (union modelled as append,
which has the same membership); an exception from any factory call
propagates. -/
def relPairs (opts : List SamplePairsOptions) (num_frames : Int)
    (two_way : Bool) : Except String (List (Nat × Nat)) :=
  opts.foldlM
    (fun acc opt => (factory num_frames opt two_way).map (fun ps => acc ++ ps))
    ([] : List (Nat × Nat))

/-- SamplePairs.sample: num_frames = len(frame_range); rel_pairs is the
union of the factory results over the option list (any raising factory
call propagates); each relative pair is mapped through
frame_range.index_to_frame, and a mapped pair is kept iff at least one
of its two frame identifiers is in frame_range.frames(). -/
def sample (opts : List SamplePairsOptions) (fr : FrameRange)
    (two_way : Bool) : Except String (List (Int × Int)) :=
  match relPairs opts (fr.length : Int) two_way with
  | Except.error e => Except.error e
  | Except.ok rel_pairs =>
      Except.ok
        ((rel_pairs.map (fun p => (fr.index_to_frame p.1, fr.index_to_frame p.2))).filter
          (fun pair => fr.frames.contains pair.1 || fr.frames.contains pair.2))

/-- Local function ordered of SamplePairs.to_one_way: swap a pair when
its first component exceeds its second. -/
def ordered (p : Int × Int) : Int × Int :=
  if p.1 > p.2 then (p.2, p.1) else p

/-- SamplePairs.to_one_way: the set of ordered(p) for p in pairs;
modelled on Finset since the comprehension builds a Python set and the
idempotence property is a set-level property. -/
def to_one_way (pairs : Finset (Int × Int)) : Finset (Int × Int) :=
  pairs.image ordered

/-! Helper lemmas about the embedded scans. -/

/-- Membership in the stepped range scan: the elements of
range(0, stop, step) are exactly the multiples of step below stop. -/
lemma mem_rangeStep {a : Nat} {stop : Int} {step : Nat} (hs : 1 ≤ step) :
    a ∈ rangeStep stop step ↔ step ∣ a ∧ (a : Int) < stop := by
  unfold rangeStep
  rw [List.mem_range']
  constructor
  · rintro ⟨i, hi, ha⟩
    have h2 : (i + 1) * step ≤ stop.toNat + step - 1 :=
      (Nat.le_div_iff_mul_le (by omega)).mp hi
    have h3 : step * i + step ≤ stop.toNat + step - 1 := by
      calc step * i + step = (i + 1) * step := by ring
      _ ≤ stop.toNat + step - 1 := h2
    have h4 : a < stop.toNat := by omega
    exact ⟨⟨i, by omega⟩, Int.lt_toNat.mp h4⟩
  · rintro ⟨⟨c, hc⟩, hlt⟩
    have h4 : a < stop.toNat := Int.lt_toNat.mpr hlt
    refine ⟨c, ?_, by omega⟩
    have h5 : (c + 1) * step ≤ stop.toNat + step - 1 := by
      have h6 : (c + 1) * step = step * c + step := by ring
      omega
    have h7 : c + 1 ≤ (stop.toNat + step - 1) / step :=
      (Nat.le_div_iff_mul_le (by omega)).mpr h5
    omega

/-- A flat map whose inner lists are all empty is empty. -/
lemma flatMap_eq_nil_of {α β : Type} (l : List α) (f : α → List β)
    (h : ∀ x ∈ l, f x = []) : l.flatMap f = [] := by
  induction l with
  | nil => rfl
  | cons a t ih =>
      rw [List.flatMap_cons, h a (List.mem_cons_self a t), List.nil_append]
      exact ih (fun x hx => h x (List.mem_cons_of_mem a hx))

/-- With a non-positive frame count every start scan is empty, so the
hierarchical scan produces no pairs. -/
lemma hierPairs_of_nonpos {nf : Int} (tw : Bool) (md : Nat) (MD : Int)
    (imp : Bool) (h : nf ≤ 0) : hierPairs nf tw md MD imp = [] := by
  have hrange : ∀ step : Nat, 1 ≤ step → rangeStep nf step = [] := by
    intro step hs
    unfold rangeStep
    rw [Int.toNat_of_nonpos h]
    have h0 : (0 + step - 1) / step = 0 := Nat.div_eq_of_lt (by omega)
    rw [h0]
    rfl
  rw [List.eq_nil_iff_forall_not_mem]
  intro p hp
  simp only [hierPairs, List.mem_flatMap, List.mem_filterMap] at hp
  obtain ⟨level, _, start, hstart, _⟩ := hp
  rw [hrange _ Nat.one_le_two_pow] at hstart
  cases hstart

/-- Pairs produced by the hierarchical scan have both endpoints inside
the index range [0, num_frames). -/
lemma hierPairs_bounds {nf : Int} {tw : Bool} {md : Nat} {MD : Int}
    {imp : Bool} {p : Nat × Nat} (hp : p ∈ hierPairs nf tw md MD imp) :
    (p.1 : Int) < nf ∧ (p.2 : Int) < nf := by
  simp only [hierPairs, List.mem_flatMap, List.mem_filterMap] at hp
  obtain ⟨level, _, start, hstart, sign, _, hif⟩ := hp
  split at hif
  · rename_i hcond
    obtain ⟨he0, heN⟩ := hcond
    cases hif
    have hstart2 := (mem_rangeStep Nat.one_le_two_pow).mp hstart
    refine ⟨hstart2.2, ?_⟩
    simpa only [Int.toNat_of_nonneg he0] using heN
  · cases hif

/-- Pairs produced by the hierarchical scan are never self-pairs: the
second endpoint differs from the first by a power of two. -/
lemma hierPairs_ne {nf : Int} {tw : Bool} {md : Nat} {MD : Int}
    {imp : Bool} {p : Nat × Nat} (hp : p ∈ hierPairs nf tw md MD imp) :
    p.1 ≠ p.2 := by
  simp only [hierPairs, List.mem_flatMap, List.mem_filterMap] at hp
  obtain ⟨level, _, start, _, sign, hsign, hif⟩ := hp
  split at hif
  · rename_i hcond
    obtain ⟨he0, _⟩ := hcond
    cases hif
    have hsg : sign = -1 ∨ sign = 1 := by
      split at hsign
      · simpa using hsign
      · exact Or.inr (by simpa using hsign)
    have hpow : (0 : Int) < ((2 ^ level : Nat) : Int) := by positivity
    intro hcontra
    have hc2 : start = ((start : Int) + sign * ((2 ^ level : Nat) : Int)).toNat :=
      hcontra
    have h1 : (start : Int) = (start : Int) + sign * ((2 ^ level : Nat) : Int) := by
      conv_lhs => rw [hc2]
      exact Int.toNat_of_nonneg he0
    rcases hsg with h | h <;> rw [h] at h1 <;> omega
  · cases hif

/-- Turning the midpoint mode on only refines the start grid (the step
divides the plain step), so every pair of the plain scan is also
produced by the midpoint scan. -/
lemma hierPairs_mono_mid {nf : Int} {tw : Bool} {md : Nat} {MD : Int}
    {p : Nat × Nat} (hp : p ∈ hierPairs nf tw md MD false) :
    p ∈ hierPairs nf tw md MD true := by
  simp only [hierPairs, List.mem_flatMap, List.mem_filterMap] at hp ⊢
  obtain ⟨level, hlev, start, hstart, sign, hsign, hif⟩ := hp
  refine ⟨level, hlev, start, ?_, sign, hsign, hif⟩
  have h1 := (mem_rangeStep Nat.one_le_two_pow).mp (by simpa using hstart)
  exact (mem_rangeStep Nat.one_le_two_pow).mpr
    ⟨dvd_trans (pow_dvd_pow 2 (Nat.sub_le level 1)) h1.1, h1.2⟩

/-- A filterMap that succeeds on every element preserves the length. -/
lemma filterMap_length_all_some {α β : Type} {l : List α} {f : α → Option β}
    (h : ∀ a ∈ l, (f a).isSome) : (l.filterMap f).length = l.length := by
  induction l with
  | nil => rfl
  | cons a t ih =>
      have ht := ih (fun x hx => h x (List.mem_cons_of_mem a hx))
      cases hfa : f a with
      | none => exact absurd (h a (List.mem_cons_self a t)) (by rw [hfa]; simp)
      | some b =>
          rw [List.filterMap_cons, hfa, List.length_cons, List.length_cons, ht]

/-- Sum of a pointwise sum of two maps. -/
lemma sum_map_add {α : Type} (l : List α) (f g : α → Nat) :
    (l.map (fun x => f x + g x)).sum = (l.map f).sum + (l.map g).sum := by
  induction l with
  | nil => rfl
  | cons a t ih =>
      simp only [List.map_cons, List.sum_cons, ih]
      omega

/-- Gauss sum over a range list. -/
lemma range_sum_mul_two (n : Nat) : (List.range n).sum * 2 = n * (n - 1) := by
  induction n with
  | zero => rfl
  | succ m ih =>
      rw [List.range_succ, List.sum_append, List.sum_cons, List.sum_nil]
      have h2 : (m + 1) * ((m + 1) - 1) = m * (m - 1) + 2 * m := by
        cases m with
        | zero => rfl
        | succ k =>
            simp only [Nat.succ_sub_one]
            ring
      omega

/-- Sum of the reflected range list. -/
lemma rev_range_sum (N : Nat) :
    ((List.range N).map (fun i => N - 1 - i)).sum = N * (N - 1) / 2 := by
  have hA : ((List.range N).map (fun i => (N - 1 - i) + i)).sum
      = ((List.range N).map (fun i => N - 1 - i)).sum
        + ((List.range N).map (fun i => i)).sum := sum_map_add _ _ _
  have hB : ((List.range N).map (fun i => (N - 1 - i) + i)).sum
      = ((List.range N).map (fun _ => N - 1)).sum := by
    refine congrArg List.sum (List.map_congr_left (fun i hi => ?_))
    rw [List.mem_range] at hi
    omega
  have hC : ((List.range N).map (fun _ => N - 1)).sum = N * (N - 1) := by
    rw [show (fun (_ : Nat) => N - 1) = Function.const Nat (N - 1) from rfl,
      List.map_const, List.sum_replicate, List.length_range, smul_eq_mul]
  have hD : ((List.range N).map (fun i => i)).sum * 2 = N * (N - 1) := by
    have hid : (List.range N).map (fun i => i) = List.range N := List.map_id _
    rw [hid]
    exact range_sum_mul_two N
  omega

/-- Length of the one-way exhaustive scan: frame i contributes the
pairs (i, j) for the n - (i + 1) larger indices j. -/
lemma sample_exhausted_length (nf : Int) :
    (sample_exhausted nf false).length = nf.toNat * (nf.toNat - 1) / 2 := by
  unfold sample_exhausted
  simp only [Bool.false_eq_true, if_false]
  rw [List.length_flatMap]
  have hmap : (List.range nf.toNat).map
      (List.length ∘ fun i => (List.range' (i + 1) (nf.toNat - (i + 1)) 1).filterMap
        (fun j => if i ≠ j then some ((i, j) : Nat × Nat) else none))
      = (List.range nf.toNat).map (fun i => nf.toNat - 1 - i) := by
    refine List.map_congr_left (fun i _ => ?_)
    have hlen : ((List.range' (i + 1) (nf.toNat - (i + 1)) 1).filterMap
        (fun j => if i ≠ j then some ((i, j) : Nat × Nat) else none)).length
        = nf.toNat - (i + 1) := by
      rw [filterMap_length_all_some, List.length_range']
      intro j hj
      rw [List.mem_range'] at hj
      obtain ⟨k, _, hk⟩ := hj
      have hij : i ≠ j := by omega
      simp [hij]
    simp only [Function.comp]
    rw [hlen]
    omega
  rw [hmap, rev_range_sum]

/-- Every pair of the one-way exhaustive scan is strictly increasing. -/
lemma sample_exhausted_one_way_lt {nf : Int} {p : Nat × Nat}
    (hp : p ∈ sample_exhausted nf false) : p.1 < p.2 := by
  simp only [sample_exhausted, Bool.false_eq_true, if_false, List.mem_flatMap,
    List.mem_filterMap] at hp
  obtain ⟨i, _, j, hj, hif⟩ := hp
  rw [List.mem_range'] at hj
  obtain ⟨k, _, hk⟩ := hj
  split at hif
  · cases hif
    omega
  · cases hif

/-- The exhaustive scan checks i != j explicitly, so it produces no
self-pair for either direction flag. -/
lemma sample_exhausted_ne {nf : Int} {tw : Bool} {p : Nat × Nat}
    (hp : p ∈ sample_exhausted nf tw) : p.1 ≠ p.2 := by
  simp only [sample_exhausted, List.mem_flatMap, List.mem_filterMap] at hp
  obtain ⟨i, _, j, _, hif⟩ := hp
  split at hif
  · rename_i hij
    cases hif
    exact hij
  · cases hif

/-- Canonicalizing twice is the same as canonicalizing once, pointwise. -/
lemma ordered_ordered (p : Int × Int) : ordered (ordered p) = ordered p := by
  rcases p with ⟨a, b⟩
  unfold ordered
  split_ifs with h1 h2
  · exact absurd h2 (by simp at h1 ⊢; omega)
  · rfl
  · rfl

/-- A canonicalized pair is weakly increasing. -/
lemma ordered_fst_le (p : Int × Int) : (ordered p).1 ≤ (ordered p).2 := by
  rcases p with ⟨a, b⟩
  unfold ordered
  split_ifs with h <;> simp at h ⊢ <;> omega

/-! Claim theorems. -/

/-- C1: the hierarchical generator at num_frames = 8, two_way = true,
min_dist = 1, max_dist = 4 succeeds, and its pair set contains (0,1),
(1,0), (0,2), (2,0) and (0,4) but not (0,8). -/
theorem claim1_hierarchical_scenario :
    ∃ L, sample_hierarchical 8 true 1 (some 4) false = Except.ok L
      ∧ ((0, 1) : Nat × Nat) ∈ L ∧ ((1, 0) : Nat × Nat) ∈ L
      ∧ ((0, 2) : Nat × Nat) ∈ L ∧ ((2, 0) : Nat × Nat) ∈ L
      ∧ ((0, 4) : Nat × Nat) ∈ L ∧ ((0, 8) : Nat × Nat) ∉ L :=
  ⟨_, rfl, by decide, by decide, by decide, by decide, by decide, by decide⟩

/-- C2: for every num_frames, direction flag and parameters with a
valid min_dist, the hierarchical generator returns (rather than
raising) a pair list all of whose endpoints lie in [0, num_frames);
out-of-range candidate ends are dropped silently. -/
theorem claim2_hierarchical_bounds :
    ∀ (nf : Int) (tw : Bool) (md : Int) (MD : Option Int) (imp : Bool),
    1 ≤ md →
    ∃ L, sample_hierarchical nf tw md MD imp = Except.ok L
      ∧ ∀ p ∈ L, 0 ≤ (p.1 : Int) ∧ (p.1 : Int) < nf
        ∧ 0 ≤ (p.2 : Int) ∧ (p.2 : Int) < nf := by
  intro nf tw md MD imp hmd
  unfold sample_hierarchical
  rw [if_neg (by omega)]
  exact ⟨_, rfl, fun p hp =>
    ⟨Int.natCast_nonneg _, (hierPairs_bounds hp).1,
     Int.natCast_nonneg _, (hierPairs_bounds hp).2⟩⟩

/-- Witness for C2 at num_frames = 8, two_way = true, min_dist = 1,
max_dist = 4. -/
theorem claim2_hierarchical_bounds_witness :
    ∃ L, sample_hierarchical 8 true 1 (some 4) false = Except.ok L
      ∧ ∀ p ∈ L, 0 ≤ (p.1 : Int) ∧ (p.1 : Int) < 8
        ∧ 0 ≤ (p.2 : Int) ∧ (p.2 : Int) < 8 :=
  claim2_hierarchical_bounds 8 true 1 (some 4) false (by norm_num)

/-- C3: with min_dist = max_dist = d, every pair of the plain
hierarchical generator is also produced by hierarchical2 (the midpoint
variant): midpoint mode only densifies the start grid. -/
theorem claim3_hierarchical2_superset :
    ∀ (nf : Int) (tw : Bool) (d : Int), 1 ≤ d →
    ∀ P Q, sample_hierarchical nf tw d (some d) false = Except.ok P →
      sample_hierarchical2 nf tw d (some d) = Except.ok Q →
      ∀ p ∈ P, p ∈ Q := by
  intro nf tw d hd P Q hP hQ p hp
  unfold sample_hierarchical2 at hQ
  unfold sample_hierarchical at hP hQ
  rw [if_neg (by omega)] at hP hQ
  cases hP
  cases hQ
  exact hierPairs_mono_mid hp

/-- Witness for C3 at num_frames = 8, two_way = true, d = 2, checked on
the pair (0, 2). -/
theorem claim3_hierarchical2_superset_witness :
    ((0, 2) : Nat × Nat) ∈ hierPairs 8 true 2 2 true :=
  claim3_hierarchical2_superset 8 true 2 (by norm_num) _ _ rfl rfl (0, 2) (by decide)

/-- C4: the claim fails on the code: invoking the exhaustive mode
through the dispatcher raises a TypeError for every num_frames (the
staticmethod's spurious leading cls parameter swallows the first
positional argument), shown here at num_frames = 2; the intended
generator body does satisfy the claim: the one-way pair count is
num_frames * (num_frames - 1) / 2 and every pair is increasing. -/
theorem claim4_exhausted_dispatch :
    factory 2 (defaultOpts SamplePairsMode.EXHAUSTED) false
      = Except.error "TypeError: sample_exhausted missing 1 required positional argument: two_way"
    ∧ (∀ nf : Int, (sample_exhausted nf false).length = nf.toNat * (nf.toNat - 1) / 2)
    ∧ (∀ (nf : Int) (p : Nat × Nat), p ∈ sample_exhausted nf false → p.1 < p.2) :=
  ⟨rfl, fun nf => sample_exhausted_length nf,
   fun _ _ hp => sample_exhausted_one_way_lt hp⟩

/-- Witness for C4's universally quantified parts at num_frames = 4
and the pair (0, 1). -/
theorem claim4_exhausted_dispatch_witness :
    (sample_exhausted 4 false).length = 4 * (4 - 1) / 2
      ∧ ((0, 1) : Nat × Nat).1 < ((0, 1) : Nat × Nat).2 :=
  ⟨(Int.toNat_natCast 4) ▸ claim4_exhausted_dispatch.2.1 4,
   claim4_exhausted_dispatch.2.2 4 (0, 1) (by decide)⟩

/-- C5: the claim fails on the code for the exhaustive mode: at
num_frames = 0 and 1 the consecutive, hierarchical and hierarchical2
modes return the empty pair set through the dispatcher, but the
exhaustive mode raises a TypeError (same dispatch fault as C4) instead
of returning the empty set. -/
theorem claim5_small_num_frames :
    (∀ tw : Bool,
      factory 0 (defaultOpts SamplePairsMode.CONSECUTIVE) tw = Except.ok []
      ∧ factory 1 (defaultOpts SamplePairsMode.CONSECUTIVE) tw = Except.ok []
      ∧ factory 0 (defaultOpts SamplePairsMode.HIERARCHICAL) tw = Except.ok []
      ∧ factory 1 (defaultOpts SamplePairsMode.HIERARCHICAL) tw = Except.ok []
      ∧ factory 0 (defaultOpts SamplePairsMode.HIERARCHICAL2) tw = Except.ok []
      ∧ factory 1 (defaultOpts SamplePairsMode.HIERARCHICAL2) tw = Except.ok [])
    ∧ factory 0 (defaultOpts SamplePairsMode.EXHAUSTED) false
      = Except.error "TypeError: sample_exhausted missing 1 required positional argument: two_way"
    ∧ factory 1 (defaultOpts SamplePairsMode.EXHAUSTED) false
      = Except.error "TypeError: sample_exhausted missing 1 required positional argument: two_way" := by
  refine ⟨fun tw => ?_, rfl, rfl⟩
  cases tw <;> exact ⟨rfl, rfl, rfl, rfl, rfl, rfl⟩

/-- C6 counterexample: calling the hierarchical generator with the
negative num_frames -1 does not raise; it returns the empty pair set. -/
theorem claim6_counterexample :
    sample_hierarchical (-1) false 1 none false = Except.ok [] := rfl

/-- C6 amended: min_dist < 1 raises immediately (the assert fires
before any level is computed), but a negative num_frames does not
raise: the generator returns the empty pair set. -/
theorem claim6_amended :
    (∀ (nf : Int) (tw : Bool) (md : Int) (MD : Option Int) (imp : Bool),
      md < 1 → sample_hierarchical nf tw md MD imp
        = Except.error "AssertionError: min_dist >= 1")
    ∧ (∀ (nf : Int) (tw : Bool) (md : Int) (MD : Option Int) (imp : Bool),
      1 ≤ md → nf < 0 → sample_hierarchical nf tw md MD imp = Except.ok []) := by
  constructor
  · intro nf tw md MD imp hmd
    unfold sample_hierarchical
    rw [if_pos hmd]
  · intro nf tw md MD imp hmd hnf
    unfold sample_hierarchical
    rw [if_neg (by omega)]
    rw [hierPairs_of_nonpos _ _ _ _ (by omega)]

/-- Witness for C6 amended: min_dist = 0 raises; num_frames = -5 with
valid min_dist returns the empty set. -/
theorem claim6_amended_witness :
    sample_hierarchical 7 false 0 none false
      = Except.error "AssertionError: min_dist >= 1"
    ∧ sample_hierarchical (-5) true 1 (some 3) false = Except.ok [] :=
  ⟨claim6_amended.1 7 false 0 none false (by norm_num),
   claim6_amended.2 (-5) true 1 (some 3) false (by norm_num) (by norm_num)⟩

/-- C7: every pair returned by SamplePairs.sample has at least one of
its two mapped frame identifiers in the active frame set of the frame
range; pairs with neither endpoint active are filtered out. -/
theorem claim7_active_filter :
    ∀ (opts : List SamplePairsOptions) (fr : FrameRange) (tw : Bool) L,
    sample opts fr tw = Except.ok L →
    ∀ p ∈ L, p.1 ∈ fr.frames ∨ p.2 ∈ fr.frames := by
  intro opts fr tw L hL p hp
  unfold sample at hL
  cases hrel : relPairs opts (fr.length : Int) tw with
  | error e => rw [hrel] at hL; cases hL
  | ok rel =>
      rw [hrel] at hL
      cases hL
      rw [List.mem_filter] at hp
      have hb := hp.2
      rw [Bool.or_eq_true] at hb
      rcases hb with h | h
      · exact Or.inl (List.mem_of_elem_eq_true h)
      · exact Or.inr (List.mem_of_elem_eq_true h)

/-- Witness for C7: consecutive sampling over five frames with active
set 0, 2, 4, checked on the first returned pair. -/
theorem claim7_active_filter_witness :
    ((0, 1) : Int × Int).1 ∈ FrameRange.frames ⟨5, fun i => (i : Int), [0, 2, 4]⟩
    ∨ ((0, 1) : Int × Int).2 ∈ FrameRange.frames ⟨5, fun i => (i : Int), [0, 2, 4]⟩ :=
  claim7_active_filter [defaultOpts SamplePairsMode.CONSECUTIVE]
    ⟨5, fun i => (i : Int), [0, 2, 4]⟩ true
    [(0, 1), (1, 0), (1, 2), (2, 1), (2, 3), (3, 2), (3, 4), (4, 3)]
    rfl (0, 1) (by decide)

/-- C8: no generator ever produces a self-pair: every pair reachable
through the dispatcher, and every pair of the exhaustive body, has
distinct endpoints. -/
theorem claim8_no_self_pairs :
    (∀ (nf : Int) (opt : SamplePairsOptions) (tw : Bool) L,
      factory nf opt tw = Except.ok L → ∀ p ∈ L, p.1 ≠ p.2)
    ∧ (∀ (nf : Int) (tw : Bool), ∀ p ∈ sample_exhausted nf tw, p.1 ≠ p.2) := by
  constructor
  · intro nf opt tw L hL p hp
    rcases opt with ⟨mode, md, MD, imp⟩
    cases mode with
    | EXHAUSTED =>
        simp only [factory] at hL
        cases hL
    | CONSECUTIVE =>
        simp only [factory] at hL
        unfold sample_consecutive sample_hierarchical at hL
        split at hL
        · cases hL
        · cases hL
          exact hierPairs_ne hp
    | HIERARCHICAL =>
        simp only [factory] at hL
        unfold sample_hierarchical at hL
        split at hL
        · cases hL
        · cases hL
          exact hierPairs_ne hp
    | HIERARCHICAL2 =>
        simp only [factory] at hL
        unfold sample_hierarchical2 sample_hierarchical at hL
        split at hL
        · cases hL
        · cases hL
          exact hierPairs_ne hp
  · intro nf tw p hp
    exact sample_exhausted_ne hp

/-- Witness for C8: the consecutive mode at num_frames = 8, and the
exhaustive body at num_frames = 3, on concrete pairs. -/
theorem claim8_no_self_pairs_witness :
    ((0, 1) : Nat × Nat).1 ≠ ((0, 1) : Nat × Nat).2
    ∧ ((0, 2) : Nat × Nat).1 ≠ ((0, 2) : Nat × Nat).2 :=
  ⟨claim8_no_self_pairs.1 8 (defaultOpts SamplePairsMode.CONSECUTIVE) true
      (hierPairs 8 true 1 1 false) rfl (0, 1) (by decide),
   claim8_no_self_pairs.2 3 true (0, 2) (by decide)⟩

/-- C9 counterexample: the name map is keyed by the lower-cased names
only, so looking up the member name EXHAUSTED in its original upper
case misses (a KeyError in Python), refuting case-insensitive lookup. -/
theorem claim9_counterexample : lookupMode "EXHAUSTED" = none := by decide

/-- C9 amended: the lookup map is keyed by the lower-cased form of each
mode name; looking up the lower-cased name of any mode returns that
mode, a non-lower-case query (the raw member name) misses, and the
exposed name list holds exactly one lower-cased name per mode with no
duplicates. -/
theorem claim9_amended :
    (∀ m : SamplePairsMode, lookupMode (pyLower m.pyName) = some m)
    ∧ (∀ m : SamplePairsMode, lookupMode m.pyName = none)
    ∧ modeNames = ["exhausted", "consecutive", "hierarchical", "hierarchical2"]
    ∧ modeNames.Nodup := by
  refine ⟨fun m => ?_, fun m => ?_, by decide, by decide⟩
  · cases m <;> decide
  · cases m <;> decide

/-- C10: to_one_way is idempotent and orders every pair weakly
increasingly. -/
theorem claim10_to_one_way :
    ∀ S : Finset (Int × Int),
      to_one_way (to_one_way S) = to_one_way S
      ∧ ∀ p ∈ to_one_way S, p.1 ≤ p.2 := by
  intro S
  constructor
  · unfold to_one_way
    have hfun : ordered ∘ ordered = ordered := funext ordered_ordered
    rw [Finset.image_image, hfun]
  · intro p hp
    unfold to_one_way at hp
    rw [Finset.mem_image] at hp
    obtain ⟨q, _, hq⟩ := hp
    rw [← hq]
    exact ordered_fst_le q

/-- Witness for C10 on the one-element set containing (3, 1), whose
canonical form (1, 3) is checked. -/
theorem claim10_to_one_way_witness :
    to_one_way (to_one_way {((3 : Int), (1 : Int))}) = to_one_way {((3 : Int), (1 : Int))}
    ∧ ((1 : Int), (3 : Int)).1 ≤ ((1 : Int), (3 : Int)).2 :=
  ⟨(claim10_to_one_way {((3 : Int), (1 : Int))}).1,
   (claim10_to_one_way {((3 : Int), (1 : Int))}).2 (1, 3) (by decide)⟩

end FrameSampling
